import Mathlib

/-!
Verification of the virtual-path algebra (`split_virtual_path`, `join_path`,
`is_path_child_of`) and the atomic file write primitive (`atomic_open`) from
`lektor/utils.py`.

Strings are modelled through their character lists (`String.data`); the
POSIX path helpers `posixpath.join` and `posixpath.normpath` used by the code
are embedded faithfully from their CPython definitions.
-/

namespace Lektor

/-- Splits a character list at the first `'@'`, returning the part before and
after it, or `none` when no `'@'` occurs.  This is `path.split("@", 1)`
restricted to the case `"@" in path`. -/
def splitFirstAt : List Char → Option (List Char × List Char)
  | [] => none
  | c :: cs =>
    if c = '@' then some ([], cs)
    else
      match splitFirstAt cs with
      | some (l, r) => some (c :: l, r)
      | none => none

/-- `split_virtual_path(path)`: split on the first `"@"` when present,
otherwise the virtual part is absent (`None`). -/
def split_virtual_path (path : String) : String × Option String :=
  match splitFirstAt path.data with
  | some (l, r) => (String.mk l, some (String.mk r))
  | none => (path, none)

/-- Python `str.split('/')` on a character list (single-character separator,
no maxsplit): always returns at least one piece; empty pieces are kept. -/
def splitSlash : List Char → List (List Char)
  | [] => [[]]
  | c :: cs =>
    if c = '/' then [] :: splitSlash cs
    else
      match splitSlash cs with
      | p :: ps => (c :: p) :: ps
      | [] => [[c]]

/-- Python `'/'.join(pieces)` on character lists. -/
def intercalateSlash : List (List Char) → List Char
  | [] => []
  | [p] => p
  | p :: ps => p ++ '/' :: intercalateSlash ps

/-- The component loop of CPython `posixpath.normpath`: `acc` is the reversed
`new_comps` accumulator, `initSlashes` records whether the path was absolute. -/
def normAux (initSlashes : Nat) (acc : List (List Char)) : List (List Char) → List (List Char)
  | [] => acc.reverse
  | comp :: rest =>
    if comp = [] ∨ comp = ['.'] then normAux initSlashes acc rest
    else if comp ≠ ['.', '.'] ∨ (initSlashes = 0 ∧ acc = []) ∨ (acc ≠ [] ∧ acc.head? = some ['.', '.'])
    then normAux initSlashes (comp :: acc) rest
    else
      match acc with
      | [] => normAux initSlashes [] rest
      | _ :: acc' => normAux initSlashes acc' rest

/-- The leading-slash count of CPython `posixpath.normpath`: one or two
initial slashes are preserved, three or more collapse to one. -/
def initialSlashes (path : List Char) : Nat :=
  match path with
  | '/' :: '/' :: '/' :: _ => 1
  | '/' :: '/' :: _ => 2
  | '/' :: _ => 1
  | _ => 0

/-- The reassembly step of `posixpath.normpath` (`'/'*initial_slashes +
'/'.join(comps)`, with the final `path or '.'`). -/
def normpathCore (k : Nat) (path : List Char) : List Char :=
  if List.replicate k '/' ++ intercalateSlash (normAux k [] (splitSlash path)) = [] then ['.']
  else List.replicate k '/' ++ intercalateSlash (normAux k [] (splitSlash path))

/-- CPython `posixpath.normpath` on a character list. -/
def normpathList (path : List Char) : List Char :=
  if path = [] then ['.'] else normpathCore (initialSlashes path) path

/-- `posixpath.normpath` on strings. -/
def posix_normpath (s : String) : String :=
  String.mk (normpathList s.data)

/-- `posixpath.join(a, b)` (two-argument form). -/
def posix_join (a b : String) : String :=
  if b.data.head? = some '/' then b
  else if a.data = [] ∨ a.data.getLast? = some '/' then a ++ b
  else a ++ "/" ++ b

/-- `_norm_join(a, b) = posixpath.normpath(posixpath.join(a, b))`. -/
def _norm_join (a b : String) : String :=
  posix_normpath (posix_join a b)

/-- Python truthiness of an optional string: `None` and `""` are falsy. -/
def optTruthy : Option String → Bool
  | none => false
  | some s => !s.data.isEmpty

/-- `a_v.isdigit()` for an optional string.  Python's `str.isdigit()` is
Unicode-aware; `Char.isDigit` models it exactly on ASCII characters (the
pagination indices the code tests), and theorems that need the *negative*
direction of this test therefore exhibit an ASCII non-digit witness
character, on which the two predicates provably agree. -/
def optDigits : Option String → Bool
  | none => false
  | some s => s.data.all fun c => c.isDigit

/-- `rv[-2:] == "@."`: the last two characters are `'@'` then `'.'`. -/
def endsAtDot (s : String) : Bool :=
  decide (s.data.reverse.take 2 = ['.', '@'])

/-- The final clean-up step of `join_path`: strip a trailing `"@."`
(`rv = rv[:-2]`). -/
def stripAtDot (s : String) : String :=
  if endsAtDot s then String.mk s.data.dropLast.dropLast else s

/-- The body of `join_path` after both arguments have been split into
(real, virtual) pairs; mirrors lines 67–80 of `lektor/utils.py`. -/
def joinCore : String × Option String → String × Option String → String
  | (a_p, a_v0), (b_p, b_v) =>
    -- Special case: discard a purely numeric (pagination) virtual part of `a`
    -- unless `b`'s real part is "" or ".".
    let a_v := if (b_p ≠ "" ∧ b_p ≠ ".") ∧ optTruthy a_v0 ∧ optDigits a_v0 then none else a_v0
    if optTruthy b_v then _norm_join a_p b_p ++ "@" ++ b_v.getD ""
    else if optTruthy a_v then a_p ++ "@" ++ _norm_join (a_v.getD "") b_p
    else _norm_join a_p b_p

/-- `join_path(a, b)` from `lektor/utils.py`. -/
def join_path (a b : String) : String :=
  stripAtDot (joinCore (split_virtual_path a) (split_virtual_path b))

/-- `cleanup_path(path) = posixpath.normpath("/" + path.lstrip("/"))`. -/
def cleanup_path (path : String) : String :=
  posix_normpath ("/" ++ String.mk (path.data.dropWhile fun c => c = '/'))

/-- Python `str.strip("/")` on a character list. -/
def stripSlashes (l : List Char) : List Char :=
  ((l.dropWhile fun c => c = '/').reverse.dropWhile fun c => c = '/').reverse

/-- `parse_path(path)`: clean the path, strip slashes, split into segments;
the degenerate split `[""]` collapses to the empty segment list. -/
def parse_path (path : String) : List String :=
  let xs := (splitSlash (stripSlashes (cleanup_path path).data)).map String.mk
  if xs = [""] then [] else xs

/-- The decision chain of `is_path_child_of` on the already-parsed real and
virtual segment lists of both arguments (lines 127–133 of `lektor/utils.py`). -/
def childOf (a_p b_p a_v b_v : List String) (strict : Bool) : Bool :=
  if (!strict) = true ∧ a_p = b_p ∧ a_v = b_v then true
  else if a_v = [] ∧ b_v ≠ [] then false
  else if a_p = b_p ∧ a_v.take b_v.length = b_v ∧ b_v.length < a_v.length then true
  else decide (a_p.take b_p.length = b_p ∧ b_p.length < a_p.length)

/-- `is_path_child_of(a, b, strict)` from `lektor/utils.py`. -/
def is_path_child_of (a b : String) (strict : Bool) : Bool :=
  childOf (parse_path (split_virtual_path a).1) (parse_path (split_virtual_path b).1)
    (parse_path ((split_virtual_path a).2.getD "")) (parse_path ((split_virtual_path b).2.getD ""))
    strict

/-! ## Filesystem model for `atomic_open` -/

/-- A file entry: its byte content and its permission bits. -/
structure FileData where
  content : String
  mode : Nat
  deriving DecidableEq

/-- A filesystem: a partial map from path names to file entries. -/
def FS := String → Option FileData

/-- Create or overwrite the entry at `name`. -/
def fsSet (fs : FS) (name : String) (fd : FileData) : FS :=
  fun n => if n = name then some fd else fs n

/-- Remove the entry at `name`. -/
def fsRemove (fs : FS) (name : String) : FS :=
  fun n => if n = name then none else fs n

/-- The branch test of `atomic_open`: Python `"r" not in mode` — a temporary
file is used exactly when the mode string does not contain `'r'`. -/
def modeUsesTemp (mode : String) : Bool :=
  !mode.data.contains 'r'

/-- `posixpath.basename`: everything after the last `'/'`. -/
def posixBasename (p : String) : String :=
  String.mk (p.data.reverse.takeWhile fun c => c ≠ '/').reverse

/-- `posixpath.dirname`: everything up to the last `'/'`, with trailing
slashes stripped unless the head consists only of slashes. -/
def posixDirname (p : String) : String :=
  let head := (p.data.reverse.dropWhile fun c => c ≠ '/').reverse
  if head = [] ∨ head.all fun c => c = '/' then String.mk head
  else String.mk (head.reverse.dropWhile fun c => c = '/').reverse

/-- The fixed temp-file marker `".__atomic-write"` used by `tempfile.mkstemp`
in `atomic_open`. -/
def tempMarker : List Char := ".__atomic-write".data

/-- Whether `n` is named like one of `atomic_open`'s temporary files: its
basename starts with `".__atomic-write"`. -/
def isTempName (n : String) : Bool :=
  tempMarker.isPrefixOf (posixBasename n).data

/-- The filesystem right after `atomic_open`'s setup phase in a writing mode:
`tempfile.mkstemp` creates the (empty) temporary file `tmp` and `os.chmod`
sets its permission bits to the literal `0o644`.  In a reading mode nothing
is created. -/
def atomicOpenEnter (fs : FS) (tmp mode : String) : FS :=
  if modeUsesTemp mode then fsSet fs tmp ⟨"", 0o644⟩ else fs

/-- The filesystem while the scoped block is running and has written `written`
so far: all output lives in the temporary file only. -/
def atomicOpenDuring (fs : FS) (tmp mode written : String) : FS :=
  fsSet (atomicOpenEnter fs tmp mode) tmp ⟨written, 0o644⟩

/-- Outcome of the scoped block (`yield f`): it either completes having
written `content`, or raises exception `e` after writing `written`. -/
inductive BodyResult where
  | ok (content : String)
  | err (written : String) (e : String)

/-- `atomic_open(filename, mode)` from `lektor/utils.py`, as a transformer of
the modelled filesystem.  `tmp` is the fresh name chosen by
`tempfile.mkstemp`; `removeOk` tells whether the best-effort `os.remove` of
the temporary file in the failure path succeeds (its `OSError` is swallowed).
On success the temporary file is renamed onto `filename` (`os.replace`);
on failure the temporary file is removed and the original exception
re-raised.  In a reading mode the call degrades to a plain `open` and the
filesystem is never modified. -/
def atomic_open (fs : FS) (filename mode tmp : String) (removeOk : Bool)
    (body : BodyResult) : FS × Except String Unit :=
  if modeUsesTemp mode then
    match body with
    | .ok c =>
      let fsc := atomicOpenDuring fs tmp mode c
      (fsSet (fsRemove fsc tmp) filename ⟨c, 0o644⟩, Except.ok ())
    | .err w e =>
      let fsw := atomicOpenDuring fs tmp mode w
      ((if removeOk then fsRemove fsw tmp else fsw), Except.error e)
  else
    (fs, match body with | .ok _ => Except.ok () | .err _ e => Except.error e)

/-- Modelled from the spec: the phrase "`mode` indicates read-only access" —
a Python open mode is read-only when it selects reading (`'r'`) and does not
request updating (`'+'`). -/
def indicatesReadOnly (mode : String) : Bool :=
  mode.data.contains 'r' && !mode.data.contains '+'

/-! ## Structural lemmas about the path helpers -/

theorem splitFirstAt_eq_none_iff : ∀ {l : List Char}, splitFirstAt l = none ↔ '@' ∉ l := by
  intro l
  induction l with
  | nil => simp [splitFirstAt]
  | cons c cs ih =>
    simp only [splitFirstAt]
    by_cases hc : c = '@'
    · subst hc; simp
    · rw [if_neg hc]
      cases h : splitFirstAt cs with
      | none =>
        have hcs : '@' ∉ cs := ih.mp h
        simp only [List.mem_cons, hcs]
        simp
        exact fun hh => hc hh.symm
      | some p =>
        obtain ⟨x, y⟩ := p
        have hcs : '@' ∈ cs := by
          by_contra hn
          rw [ih.mpr hn] at h
          cases h
        simp [List.mem_cons, hcs]

theorem splitFirstAt_append {r : List Char} : ∀ {l : List Char}, '@' ∉ l →
    splitFirstAt (l ++ '@' :: r) = some (l, r) := by
  intro l
  induction l with
  | nil => intro _; simp [splitFirstAt]
  | cons c cs ih =>
    intro h
    have hc : c ≠ '@' := fun hh => h (hh ▸ List.mem_cons_self c cs)
    have hcs : '@' ∉ cs := fun hh => h (List.mem_cons_of_mem c hh)
    simp [splitFirstAt, hc, ih hcs]

theorem splitFirstAt_fst : ∀ {l x y : List Char}, splitFirstAt l = some (x, y) → '@' ∉ x := by
  intro l
  induction l with
  | nil => intro x y h; simp [splitFirstAt] at h
  | cons c cs ih =>
    intro x y h
    simp only [splitFirstAt] at h
    by_cases hc : c = '@'
    · rw [if_pos hc] at h
      cases h
      simp
    · rw [if_neg hc] at h
      cases hs : splitFirstAt cs with
      | none => rw [hs] at h; cases h
      | some p =>
        obtain ⟨l', r'⟩ := p
        rw [hs] at h
        cases h
        intro hm
        rcases List.mem_cons.mp hm with h1 | h2
        · exact hc h1.symm
        · exact ih hs h2

theorem split_virtual_path_fst_no_at (s : String) : '@' ∉ (split_virtual_path s).1.data := by
  unfold split_virtual_path
  cases h : splitFirstAt s.data with
  | none => simpa using splitFirstAt_eq_none_iff.mp h
  | some p =>
    obtain ⟨x, y⟩ := p
    simpa using splitFirstAt_fst h

theorem split_virtual_path_of_no_at {s : String} (h : '@' ∉ s.data) :
    split_virtual_path s = (s, none) := by
  unfold split_virtual_path
  rw [splitFirstAt_eq_none_iff.mpr h]

theorem split_virtual_path_append {a_p v : String} (h : '@' ∉ a_p.data) :
    split_virtual_path (a_p ++ "@" ++ v) = (a_p, some v) := by
  have hat : ("@" : String).data = ['@'] := rfl
  have hd : (a_p ++ "@" ++ v).data = a_p.data ++ '@' :: v.data := by
    simp [String.data_append, hat]
  unfold split_virtual_path
  rw [hd, splitFirstAt_append h]

theorem splitSlash_ne_nil : ∀ (l : List Char), splitSlash l ≠ [] := by
  intro l
  induction l with
  | nil => simp [splitSlash]
  | cons c cs ih =>
    simp only [splitSlash]
    by_cases hc : c = '/'
    · simp [hc]
    · rw [if_neg hc]
      cases h : splitSlash cs with
      | nil => exact absurd h ih
      | cons p ps => simp

theorem mem_of_mem_splitSlash {c : Char} : ∀ {l p : List Char}, p ∈ splitSlash l → c ∈ p → c ∈ l := by
  intro l
  induction l with
  | nil =>
    intro p hp hc
    simp [splitSlash] at hp
    subst hp
    simp at hc
  | cons x xs ih =>
    intro p hp hc
    simp only [splitSlash] at hp
    by_cases hx : x = '/'
    · rw [if_pos hx] at hp
      rcases List.mem_cons.mp hp with h1 | h2
      · subst h1; simp at hc
      · exact List.mem_cons_of_mem x (ih h2 hc)
    · rw [if_neg hx] at hp
      cases hs : splitSlash xs with
      | nil => exact absurd hs (splitSlash_ne_nil xs)
      | cons q qs =>
        rw [hs] at hp
        rcases List.mem_cons.mp hp with h1 | h2
        · subst h1
          rcases List.mem_cons.mp hc with h3 | h4
          · subst h3; exact List.mem_cons_self c xs
          · exact List.mem_cons_of_mem x (ih (by rw [hs]; exact List.mem_cons_self q qs) h4)
        · exact List.mem_cons_of_mem x (ih (by rw [hs]; exact List.mem_cons_of_mem q h2) hc)

theorem mem_of_mem_normAux : ∀ {comps : List (List Char)} {k : Nat} {acc : List (List Char)}
    {p : List Char}, p ∈ normAux k acc comps → p ∈ acc ∨ p ∈ comps := by
  intro comps
  induction comps with
  | nil =>
    intro k acc p hp
    simp only [normAux] at hp
    exact Or.inl (List.mem_reverse.mp hp)
  | cons comp rest ih =>
    intro k acc p hp
    simp only [normAux] at hp
    by_cases h1 : comp = [] ∨ comp = ['.']
    · rw [if_pos h1] at hp
      rcases ih hp with h | h
      · exact Or.inl h
      · exact Or.inr (List.mem_cons_of_mem _ h)
    · rw [if_neg h1] at hp
      by_cases h2 : comp ≠ ['.', '.'] ∨ (k = 0 ∧ acc = []) ∨ (acc ≠ [] ∧ acc.head? = some ['.', '.'])
      · rw [if_pos h2] at hp
        rcases ih hp with h | h
        · rcases List.mem_cons.mp h with h3 | h4
          · exact Or.inr (h3 ▸ List.mem_cons_self comp rest)
          · exact Or.inl h4
        · exact Or.inr (List.mem_cons_of_mem _ h)
      · rw [if_neg h2] at hp
        cases acc with
        | nil =>
          rcases ih hp with h | h
          · exact absurd h (List.not_mem_nil p)
          · exact Or.inr (List.mem_cons_of_mem _ h)
        | cons a acc' =>
          rcases ih hp with h | h
          · exact Or.inl (List.mem_cons_of_mem a h)
          · exact Or.inr (List.mem_cons_of_mem _ h)

theorem mem_intercalateSlash {c : Char} : ∀ {ps : List (List Char)},
    c ∈ intercalateSlash ps → (∃ p ∈ ps, c ∈ p) ∨ c = '/'
  | [], h => by simp [intercalateSlash] at h
  | [p], h => Or.inl ⟨p, by simp, by simpa [intercalateSlash] using h⟩
  | p :: q :: qs, h => by
    simp only [intercalateSlash] at h
    rcases List.mem_append.mp h with h1 | h2
    · exact Or.inl ⟨p, by simp, h1⟩
    · rcases List.mem_cons.mp h2 with h3 | h4
      · exact Or.inr h3
      · rcases mem_intercalateSlash h4 with ⟨r, hr, hcr⟩ | h5
        · exact Or.inl ⟨r, List.mem_cons_of_mem p hr, hcr⟩
        · exact Or.inr h5

theorem mem_normpathCore {c : Char} {l : List Char} {k : Nat} (h : c ∈ normpathCore k l) :
    c ∈ l ∨ c = '/' ∨ c = '.' := by
  unfold normpathCore at h
  split at h
  · simp at h
    exact Or.inr (Or.inr h)
  · rcases List.mem_append.mp h with h1 | h2
    · exact Or.inr (Or.inl (List.eq_of_mem_replicate h1))
    · rcases mem_intercalateSlash h2 with ⟨p, hp, hcp⟩ | h3
      · rcases mem_of_mem_normAux hp with h4 | h4
        · exact absurd h4 (List.not_mem_nil p)
        · exact Or.inl (mem_of_mem_splitSlash h4 hcp)
      · exact Or.inr (Or.inl h3)

theorem mem_normpathList {c : Char} {l : List Char} (h : c ∈ normpathList l) :
    c ∈ l ∨ c = '/' ∨ c = '.' := by
  unfold normpathList at h
  split at h
  · simp at h
    exact Or.inr (Or.inr h)
  · exact mem_normpathCore h

theorem normpathCore_ne_nil (k : Nat) (l : List Char) : normpathCore k l ≠ [] := by
  unfold normpathCore
  split
  · simp
  · assumption

theorem normpathList_ne_nil (l : List Char) : normpathList l ≠ [] := by
  unfold normpathList
  split
  · simp
  · exact normpathCore_ne_nil _ _

theorem data_norm_join (a b : String) :
    (_norm_join a b).data = normpathList (posix_join a b).data := rfl

theorem norm_join_ne_nil (a b : String) : (_norm_join a b).data ≠ [] := by
  rw [data_norm_join]
  exact normpathList_ne_nil _

theorem mem_posix_join {c : Char} {a b : String} (h : c ∈ (posix_join a b).data) :
    c ∈ a.data ∨ c ∈ b.data ∨ c = '/' := by
  unfold posix_join at h
  split at h
  · exact Or.inr (Or.inl h)
  · split at h
    · rw [String.data_append] at h
      rcases List.mem_append.mp h with h1 | h2
      · exact Or.inl h1
      · exact Or.inr (Or.inl h2)
    · have hsl : ("/" : String).data = ['/'] := rfl
      simp only [String.data_append, hsl] at h
      rcases List.mem_append.mp h with h1 | h2
      · rcases List.mem_append.mp h1 with h3 | h4
        · exact Or.inl h3
        · simp at h4
          exact Or.inr (Or.inr h4)
      · exact Or.inr (Or.inl h2)

theorem norm_join_no_at {a b : String} (ha : '@' ∉ a.data) (hb : '@' ∉ b.data) :
    '@' ∉ (_norm_join a b).data := by
  intro h
  rw [data_norm_join] at h
  rcases mem_normpathList h with h1 | h1 | h1
  · rcases mem_posix_join h1 with h2 | h2 | h2
    · exact ha h2
    · exact hb h2
    · exact absurd h2 (by decide)
  · exact absurd h1 (by decide)
  · exact absurd h1 (by decide)

theorem eq_empty_of_data {s : String} (h : s.data = []) : s = "" := by
  cases s with
  | mk d => cases h; rfl

theorem data_ne_nil_of_ne_empty {s : String} (h : s ≠ "") : s.data ≠ [] := by
  intro hd
  exact h (eq_empty_of_data hd)

theorem eq_dot_of_data {s : String} (h : s.data = ['.']) : s = "." := by
  cases s with
  | mk d => cases h; rfl

theorem optTruthy_some {v : String} (h : v ≠ "") : optTruthy (some v) = true := by
  have hd := data_ne_nil_of_ne_empty h
  simp [optTruthy]
  simpa using hd

theorem split_virtual_path_trailing {r : String} (h : '@' ∉ r.data) :
    split_virtual_path (r ++ "@") = (r, some "") := by
  have hat : ("@" : String).data = ['@'] := rfl
  have hd : (r ++ "@").data = r.data ++ '@' :: [] := by
    simp [String.data_append, hat]
  unfold split_virtual_path
  rw [hd, splitFirstAt_append h]

theorem joinCore_fst_some_empty (a_p : String) (x : String × Option String) :
    joinCore (a_p, some "") x = joinCore (a_p, none) x := by
  obtain ⟨b_p, b_v⟩ := x
  have h0 : optTruthy (some "") = false := by decide
  simp [joinCore, h0, optTruthy]

theorem joinCore_snd_some_empty (a_p : String) (a_v : Option String) (b_p : String) :
    joinCore (a_p, a_v) (b_p, some "") = joinCore (a_p, a_v) (b_p, none) := by
  have h0 : optTruthy (some "") = false := by decide
  simp [joinCore, h0, optTruthy]

/-! ## Claims about `join_path` -/

/-- Claim C10: a trailing `"@"` with nothing after it is treated by
`join_path` as if the path had no virtual part at all: appending `"@"` to an
`"@"`-free first or second argument does not change the result. -/
theorem join_path_trailing_at :
    ∀ r b s a : String, '@' ∉ r.data → '@' ∉ s.data →
      join_path (r ++ "@") b = join_path r b ∧ join_path a (s ++ "@") = join_path a s := by
  intro r b s a hr hs
  constructor
  · unfold join_path
    rw [split_virtual_path_trailing hr, split_virtual_path_of_no_at hr,
      joinCore_fst_some_empty]
  · unfold join_path
    rw [split_virtual_path_trailing hs, split_virtual_path_of_no_at hs]
    rcases hsa : split_virtual_path a with ⟨a_p, a_v⟩
    rw [joinCore_snd_some_empty]

/-- Claim C10 witness: the trailing-`"@"` rule at concrete inputs. -/
theorem join_path_trailing_at_witness :
    join_path "a@" "b" = join_path "a" "b" ∧ join_path "d" "c@" = join_path "d" "c" :=
  join_path_trailing_at "a" "b" "c" "d" (by decide) (by decide)

/-- Claim C2: when `b`'s real part is non-empty and not `"."` and `a`'s
virtual part is purely numeric, `a`'s virtual part is discarded before
combining, so joining from `a` equals joining from `a`'s real part alone;
in particular `join_path "a@2" "sibling" = join_path "a" "sibling"` while
`join_path "a@2" "." = "a@2"`. -/
theorem join_path_numeric_discard :
    (∀ a b v : String, (split_virtual_path a).2 = some v → v ≠ "" →
      v.data.all (fun c => c.isDigit) = true →
      (split_virtual_path b).1 ≠ "" → (split_virtual_path b).1 ≠ "." →
      join_path a b = join_path (split_virtual_path a).1 b) ∧
    join_path "a@2" "sibling" = join_path "a" "sibling" ∧
    join_path "a@2" "." = "a@2" := by
  refine ⟨?_, by decide, by decide⟩
  intro a b v hv hne hdig hb1 hb2
  have hap := split_virtual_path_fst_no_at a
  unfold join_path
  rcases hsa : split_virtual_path a with ⟨a_p, a_v⟩
  rcases hsb : split_virtual_path b with ⟨b_p, b_v⟩
  rw [hsa] at hv hap
  rw [hsb] at hb1 hb2
  simp only at hv hap hb1 hb2
  subst hv
  show stripAtDot (joinCore (a_p, some v) (b_p, b_v)) =
    stripAtDot (joinCore (split_virtual_path a_p) (b_p, b_v))
  rw [split_virtual_path_of_no_at hap]
  congr 1
  simp only [joinCore]
  have hT : optTruthy (some v) = true := optTruthy_some hne
  have hD : optDigits (some v) = true := hdig
  have hcondpos : (b_p ≠ "" ∧ b_p ≠ ".") ∧ optTruthy (some v) = true ∧
      optDigits (some v) = true := ⟨⟨hb1, hb2⟩, hT, hD⟩
  rw [if_pos hcondpos]
  have hcondneg : ¬((b_p ≠ "" ∧ b_p ≠ ".") ∧ optTruthy none = true ∧
      optDigits none = true) := fun h => absurd h.2.1 (by decide)
  rw [if_neg hcondneg]

/-- Claim C2 witness: the numeric-virtual-discard rule at a concrete input. -/
theorem join_path_numeric_discard_witness :
    join_path "p@7" "q" = join_path "p" "q" :=
  join_path_numeric_discard.1 "p@7" "q" "7" rfl (by decide) (by decide) (by decide) (by decide)

/-- Claim C3 counterexample: for `a = "x@sub"`, `b = ".."` the normalized
virtual join is `"."`, so the code strips the trailing `"@."` and returns
just the real part `"x"`, not `real + "@" + normalize(join(virtual, b.real))
= "x@."` as the claim states. -/
theorem join_path_inside_virtual_counterexample :
    join_path "x@sub" ".." = "x" ∧
    (split_virtual_path "x@sub").1 ++ "@" ++ _norm_join "sub" (split_virtual_path "..").1 = "x@." ∧
    join_path "x@sub" ".." ≠
      (split_virtual_path "x@sub").1 ++ "@" ++ _norm_join "sub" (split_virtual_path "..").1 := by
  refine ⟨by decide, by decide, by decide⟩

/-- Claim C3 (amended): for `a` with a non-empty virtual part and `b` with
no virtual part, when the numeric-discard rule does not fire — either
because `b`'s real part is `""` or `"."`, or because `a`'s virtual part
contains an ASCII non-digit character and so is not purely numeric (an
ASCII character outside `'0'`–`'9'` is not a digit for Python's
Unicode-aware `str.isdigit()` either, so on this hypothesis the embedding
and the code agree) — `join_path a b` equals
`a.real ++ "@" ++ normpath(join(a.virtual, b.real))` with a trailing `"@."`
stripped from the result (so when the normalized virtual join collapses to
`"."`, the result is just `a`'s real part); in particular
`join_path "a@sub" "b" = "a@" ++ normalize(join("sub", "b"))`. -/
theorem join_path_inside_virtual :
    (∀ a b v : String, (split_virtual_path a).2 = some v → v ≠ "" →
      ((split_virtual_path b).1 = "" ∨ (split_virtual_path b).1 = "." ∨
        ∃ c ∈ v.data, c.toNat < 128 ∧ c.isDigit = false) →
      (split_virtual_path b).2 = none →
      join_path a b =
        stripAtDot ((split_virtual_path a).1 ++ "@" ++ _norm_join v (split_virtual_path b).1)) ∧
    join_path "a@sub" "b" = "a@" ++ posix_normpath (posix_join "sub" "b") := by
  refine ⟨?_, by decide⟩
  intro a b v hv hne hnd hbv
  unfold join_path
  rcases hsa : split_virtual_path a with ⟨a_p, a_v⟩
  rcases hsb : split_virtual_path b with ⟨b_p, b_v⟩
  rw [hsa] at hv
  rw [hsb] at hnd hbv
  simp only at hv hnd hbv
  subst hv
  subst hbv
  show stripAtDot (joinCore (a_p, some v) (b_p, none)) =
    stripAtDot (a_p ++ "@" ++ _norm_join v b_p)
  congr 1
  simp only [joinCore]
  have hT : optTruthy (some v) = true := optTruthy_some hne
  have hcond : ¬((b_p ≠ "" ∧ b_p ≠ ".") ∧ optTruthy (some v) = true ∧
      optDigits (some v) = true) := by
    rintro ⟨⟨hc1, hc2⟩, _, hcD⟩
    rcases hnd with h | h | h
    · exact hc1 h
    · exact hc2 h
    · obtain ⟨c, hcm, _, hcd⟩ := h
      have hall : v.data.all (fun c => c.isDigit) = true := hcD
      rw [List.all_eq_true] at hall
      rw [hall c hcm] at hcd
      cases hcd
  rw [if_neg hcond]
  have hFn : ¬(optTruthy none = true) := by decide
  rw [if_neg hFn, if_pos hT]
  rfl

/-- Claim C3 witness: the inside-virtual join rule at a concrete input. -/
theorem join_path_inside_virtual_witness :
    join_path "a@sub" "b" =
      stripAtDot ((split_virtual_path "a@sub").1 ++ "@" ++
        _norm_join "sub" (split_virtual_path "b").1) :=
  join_path_inside_virtual.1 "a@sub" "b" "sub" rfl (by decide)
    (Or.inr (Or.inr (by decide))) rfl

/-- Claim C4 counterexample: `b = "b@."` carries the non-empty virtual
suffix `"."`, but the joined result ends in `"@."`, which `join_path`
strips, so the joined result has no virtual part at all. -/
theorem join_path_roundtrip_counterexample :
    (split_virtual_path "b@.").2 = some "." ∧
    (split_virtual_path (join_path "a" "b@.")).2 = none ∧
    (split_virtual_path (join_path "a" "b@.")).2 ≠ (split_virtual_path "b@.").2 := by
  refine ⟨by decide, by decide, by decide⟩

theorem endsAtDot_append_virtual {X bv : String} (h1 : bv ≠ "") (h2 : bv ≠ ".")
    (h3 : endsAtDot bv = false) : endsAtDot (X ++ "@" ++ bv) = false := by
  have hat : ("@" : String).data = ['@'] := rfl
  have hd : (X ++ "@" ++ bv).data = X.data ++ '@' :: bv.data := by
    simp [String.data_append, hat]
  unfold endsAtDot at h3 ⊢
  rw [hd]
  rw [show X.data ++ '@' :: bv.data = X.data ++ ('@' :: bv.data) from rfl,
    List.reverse_append, List.reverse_cons]
  rcases hbd : bv.data.reverse with _ | ⟨c1, t1⟩
  · exact absurd (eq_empty_of_data (List.reverse_eq_nil_iff.mp hbd)) h1
  · rcases t1 with _ | ⟨c2, t2⟩
    · have hc1 : bv.data = [c1] := by
        have h := congrArg List.reverse hbd
        simpa using h
      have hc1d : c1 ≠ '.' := by
        intro he
        exact h2 (eq_dot_of_data (by rw [hc1, he]))
      show decide ([c1, '@'] = ['.', '@']) = false
      rw [decide_eq_false_iff_not]
      intro heq
      simp only [List.cons.injEq] at heq
      exact hc1d heq.1
    · rw [hbd] at h3
      show decide ([c1, c2] = ['.', '@']) = false
      exact h3

theorem stripAtDot_of_not {s : String} (h : endsAtDot s = false) : stripAtDot s = s := by
  unfold stripAtDot
  rw [h]
  simp

/-- Claim C4 (amended): when `b` carries a virtual suffix `bv` that is
neither `"."` nor ends in `"@."` (so the joined string does not end in the
stripped `"@."` marker), the virtual part of `split_virtual_path
(join_path a b)` is exactly `bv`. -/
theorem join_path_virtual_roundtrip (a b bv : String)
    (hb : (split_virtual_path b).2 = some bv) (h1 : bv ≠ "") (h2 : bv ≠ ".")
    (h3 : endsAtDot bv = false) :
    (split_virtual_path (join_path a b)).2 = some bv := by
  have hap := split_virtual_path_fst_no_at a
  have hbp := split_virtual_path_fst_no_at b
  unfold join_path
  rcases hsa : split_virtual_path a with ⟨a_p, a_v⟩
  rcases hsb : split_virtual_path b with ⟨b_p, b_v⟩
  rw [hsa] at hap
  rw [hsb] at hbp hb
  simp only at hap hbp hb
  subst hb
  have hX : '@' ∉ (_norm_join a_p b_p).data := norm_join_no_at hap hbp
  have hjc : joinCore (a_p, a_v) (b_p, some bv) = _norm_join a_p b_p ++ "@" ++ bv := by
    simp [joinCore, optTruthy_some h1]
  rw [hjc, stripAtDot_of_not (endsAtDot_append_virtual h1 h2 h3),
    split_virtual_path_append hX]

/-- Claim C4 witness: the virtual-suffix round-trip at a concrete input. -/
theorem join_path_virtual_roundtrip_witness :
    (split_virtual_path (join_path "a" "b@x")).2 = some "x" :=
  join_path_virtual_roundtrip "a" "b@x" "x" rfl (by decide) (by decide) (by decide)

/-! ## Claims about `is_path_child_of` -/

theorem parse_path_empty : parse_path "" = [] := by decide

/-- Claim C5: `is_path_child_of` on the given concrete inputs, and, absent
virtual-path involvement, with `strict = true` the result is true exactly
when `b`'s real segment list is a strict, non-equal prefix of `a`'s. -/
theorem is_path_child_of_real_prefix :
    is_path_child_of "a/b" "a" true = true ∧
    is_path_child_of "a" "a" true = false ∧
    is_path_child_of "a" "a" false = true ∧
    ∀ a b : String, '@' ∉ a.data → '@' ∉ b.data →
      (is_path_child_of a b true = true ↔
        (parse_path b <+: parse_path a ∧ parse_path b ≠ parse_path a)) := by
  refine ⟨by decide, by decide, by decide, ?_⟩
  intro a b ha hb
  unfold is_path_child_of
  rw [split_virtual_path_of_no_at ha, split_virtual_path_of_no_at hb]
  show childOf (parse_path a) (parse_path b) (parse_path "") (parse_path "") true = true ↔ _
  rw [parse_path_empty]
  unfold childOf
  rw [if_neg (by simp), if_neg (by simp), if_neg (by simp), decide_eq_true_eq]
  constructor
  · rintro ⟨h1, h2⟩
    refine ⟨List.prefix_iff_eq_take.mpr h1.symm, ?_⟩
    intro he
    rw [he] at h2
    exact Nat.lt_irrefl _ h2
  · rintro ⟨hp, hne⟩
    exact ⟨(List.prefix_iff_eq_take.mp hp).symm,
      Nat.lt_of_le_of_ne hp.length_le fun hl => hne (hp.eq_of_length hl)⟩

/-- Claim C5 witness: the strict-prefix characterisation at a concrete
input. -/
theorem is_path_child_of_real_prefix_witness :
    is_path_child_of "x/y" "x" true = true ↔
      (parse_path "x" <+: parse_path "x/y" ∧ parse_path "x" ≠ parse_path "x/y") :=
  is_path_child_of_real_prefix.2.2.2 "x/y" "x" (by decide) (by decide)

theorem childOf_no_virtual {a_p b_p b_v : List String} (h : b_v ≠ []) :
    childOf a_p b_p [] b_v true = false := by
  unfold childOf
  rw [if_neg (by simp), if_pos ⟨rfl, h⟩]

theorem childOf_virtual_ext {a_p b_p a_v b_v : List String} (h1 : a_p = b_p)
    (h2 : a_v.take b_v.length = b_v) (h3 : b_v.length < a_v.length) :
    childOf a_p b_p a_v b_v true = true := by
  have hav : a_v ≠ [] := by
    intro he
    rw [he] at h3
    simp at h3
  unfold childOf
  rw [if_neg (by simp), if_neg fun hc => hav hc.1, if_pos ⟨h1, h2, h3⟩]

/-- Claim C6: with `strict = true`, if `a` has no virtual segments but `b`
does, the result is false; if the real segment lists agree and `a`'s virtual
segments strictly extend `b`'s, the result is true — with the two quoted
concrete instances. -/
theorem is_path_child_of_virtual_rules :
    is_path_child_of "a@1/2" "a@1" true = true ∧
    is_path_child_of "a" "a@1" true = false ∧
    (∀ a b : String, parse_path ((split_virtual_path a).2.getD "") = [] →
      parse_path ((split_virtual_path b).2.getD "") ≠ [] →
      is_path_child_of a b true = false) ∧
    (∀ a b : String,
      parse_path (split_virtual_path a).1 = parse_path (split_virtual_path b).1 →
      (parse_path ((split_virtual_path a).2.getD "")).take
          (parse_path ((split_virtual_path b).2.getD "")).length =
        parse_path ((split_virtual_path b).2.getD "") →
      (parse_path ((split_virtual_path b).2.getD "")).length <
        (parse_path ((split_virtual_path a).2.getD "")).length →
      is_path_child_of a b true = true) := by
  refine ⟨by decide, by decide, ?_, ?_⟩
  · intro a b h1 h2
    unfold is_path_child_of
    rw [h1]
    exact childOf_no_virtual h2
  · intro a b h1 h2 h3
    unfold is_path_child_of
    exact childOf_virtual_ext h1 h2 h3

/-- Claim C6 witness: both virtual rules at concrete inputs. -/
theorem is_path_child_of_virtual_rules_witness :
    is_path_child_of "c" "c@1" true = false ∧ is_path_child_of "c@1/2" "c@1" true = true :=
  ⟨is_path_child_of_virtual_rules.2.2.1 "c" "c@1" (by decide) (by decide),
    is_path_child_of_virtual_rules.2.2.2 "c@1/2" "c@1" (by decide) (by decide) (by decide)⟩

/-- Claim C9: `join_path` and `is_path_child_of` are total on all string
inputs — the embedding defines them as total Lean functions (the Python
code has no failing operation on any input), so every input yields a string
respectively a boolean. -/
theorem path_functions_total :
    ∀ (a b : String) (strict : Bool),
      (∃ s : String, join_path a b = s) ∧
      (is_path_child_of a b strict = true ∨ is_path_child_of a b strict = false) := by
  intro a b strict
  refine ⟨⟨join_path a b, rfl⟩, ?_⟩
  cases h : is_path_child_of a b strict
  · exact Or.inr rfl
  · exact Or.inl rfl

/-! ## Claims about `atomic_open` -/

/-- Claim C1: in a writing mode, for every exception `e` raised inside the
scoped block, the temporary file is removed (when the best-effort removal
succeeds; its own failure is swallowed — the outcome is `Except.error e`
for either value of `removeOk`), the original exception is re-raised
unchanged, and the file at the target path is untouched. -/
theorem atomic_open_exceptional (fs : FS) (filename mode tmp w e : String) (removeOk : Bool)
    (hm : modeUsesTemp mode = true) (hne : tmp ≠ filename) :
    (atomic_open fs filename mode tmp removeOk (.err w e)).2 = Except.error e ∧
    (atomic_open fs filename mode tmp removeOk (.err w e)).1 filename = fs filename ∧
    (removeOk = true → (atomic_open fs filename mode tmp removeOk (.err w e)).1 tmp = none) := by
  have hfn : filename ≠ tmp := Ne.symm hne
  unfold atomic_open
  rw [if_pos hm]
  refine ⟨rfl, ?_, ?_⟩
  · cases removeOk with
    | false => simp [atomicOpenDuring, atomicOpenEnter, hm, fsSet, hfn]
    | true => simp [atomicOpenDuring, atomicOpenEnter, hm, fsSet, fsRemove, hfn]
  · intro hr
    subst hr
    simp [fsRemove]

/-- Claim C1 witness: the exceptional path at a concrete input. -/
theorem atomic_open_exceptional_witness :
    (atomic_open (fun _ => none) "f" "w" ".__atomic-write1" true (.err "par" "boom")).2 =
      Except.error "boom" ∧
    (atomic_open (fun _ => none) "f" "w" ".__atomic-write1" true (.err "par" "boom")).1 "f" =
      none ∧
    (true = true →
      (atomic_open (fun _ => none) "f" "w" ".__atomic-write1" true
        (.err "par" "boom")).1 ".__atomic-write1" = none) :=
  atomic_open_exceptional (fun _ => none) "f" "w" ".__atomic-write1" "par" "boom" true
    (by decide) (by decide)

/-- Claim C7: in a writing mode, after the scoped block completes without
error having written `c`, the target file contains exactly `c`, no file
named with the temp marker remains in the target's directory (assuming none
was there initially and the target itself is not temp-named), and while the
block is still writing the target is unchanged — the temporary file is only
renamed onto the target at scope exit. -/
theorem atomic_open_success (fs : FS) (filename mode tmp c : String) (removeOk : Bool)
    (hm : modeUsesTemp mode = true) (hne : tmp ≠ filename)
    (hclean : ∀ n, posixDirname n = posixDirname filename → isTempName n = true → fs n = none)
    (hfn : isTempName filename = false) :
    (atomic_open fs filename mode tmp removeOk (.ok c)).2 = Except.ok () ∧
    (atomic_open fs filename mode tmp removeOk (.ok c)).1 filename = some ⟨c, 0o644⟩ ∧
    (∀ n, posixDirname n = posixDirname filename → isTempName n = true →
      (atomic_open fs filename mode tmp removeOk (.ok c)).1 n = none) ∧
    (∀ w, atomicOpenDuring fs tmp mode w filename = fs filename) := by
  have hfn' : filename ≠ tmp := Ne.symm hne
  unfold atomic_open
  rw [if_pos hm]
  refine ⟨rfl, ?_, ?_, ?_⟩
  · simp [fsSet]
  · intro n hdir htn
    have hn_ne : n ≠ filename := by
      intro he
      rw [he, hfn] at htn
      cases htn
    by_cases hnt : n = tmp
    · subst hnt
      simp [fsSet, fsRemove, hn_ne]
    · simp [fsSet, fsRemove, hn_ne, hnt, atomicOpenDuring, atomicOpenEnter, hm]
      exact hclean n hdir htn
  · intro w
    simp [atomicOpenDuring, atomicOpenEnter, hm, fsSet, hfn']

/-- Claim C7 witness: the success path at a concrete input, including the
removal of the temporary file itself. -/
theorem atomic_open_success_witness :
    (atomic_open (fun _ => none) "f" "w" ".__atomic-write1" true (.ok "hello")).2 =
      Except.ok () ∧
    (atomic_open (fun _ => none) "f" "w" ".__atomic-write1" true (.ok "hello")).1 "f" =
      some ⟨"hello", 0o644⟩ ∧
    (atomic_open (fun _ => none) "f" "w" ".__atomic-write1" true
      (.ok "hello")).1 ".__atomic-write1" = none :=
  ⟨(atomic_open_success (fun _ => none) "f" "w" ".__atomic-write1" "hello" true
      (by decide) (by decide) (fun _ _ _ => rfl) (by decide)).1,
    (atomic_open_success (fun _ => none) "f" "w" ".__atomic-write1" "hello" true
      (by decide) (by decide) (fun _ _ _ => rfl) (by decide)).2.1,
    (atomic_open_success (fun _ => none) "f" "w" ".__atomic-write1" "hello" true
      (by decide) (by decide) (fun _ _ _ => rfl) (by decide)).2.2.1 ".__atomic-write1"
      (by decide) (by decide)⟩

/-- Claim C8 counterexample: the mode `"r+"` requests reading *and* writing,
so it does not indicate read-only access, yet `atomic_open` takes the plain
`open` branch for it (the code tests `"r" not in mode`) and creates no
temporary file. -/
theorem atomic_open_read_only_counterexample :
    indicatesReadOnly "r+" = false ∧
    atomicOpenEnter (fun _ => none) ".__atomic-write0" "r+" ".__atomic-write0" = none := by
  refine ⟨by decide, rfl⟩

/-- Claim C8 (amended): for every mode containing the character `'r'` (the
code's actual test — this includes updating modes such as `"r+"`),
`atomic_open` degrades to a plain open and never modifies the filesystem;
for every other mode the setup phase creates the temporary file with
permission bits set to the fixed literal `0o644`. -/
theorem atomic_open_mode_branch :
    ∀ (fs : FS) (filename mode tmp : String) (removeOk : Bool) (body : BodyResult),
      (mode.data.contains 'r' = true →
        ∀ n, (atomic_open fs filename mode tmp removeOk body).1 n = fs n) ∧
      (mode.data.contains 'r' = false →
        atomicOpenEnter fs tmp mode tmp = some ⟨"", 0o644⟩) := by
  intro fs filename mode tmp removeOk body
  constructor
  · intro hr n
    have hm : modeUsesTemp mode = false := by
      unfold modeUsesTemp
      rw [hr]
      rfl
    unfold atomic_open
    rw [if_neg (by simp [hm])]
  · intro hr
    have hm : modeUsesTemp mode = true := by
      unfold modeUsesTemp
      rw [hr]
      rfl
    unfold atomicOpenEnter
    rw [if_pos hm]
    simp [fsSet]

/-- Claim C8 witness: the reading branch leaves the filesystem untouched and
the writing branch creates the `0o644` temporary file, at concrete inputs. -/
theorem atomic_open_mode_branch_witness :
    (atomic_open (fun _ => none) "f" "r" ".__atomic-write0" true (.ok "x")).1 "f" = none ∧
    atomicOpenEnter (fun _ => none) ".__atomic-write0" "w" ".__atomic-write0" =
      some ⟨"", 0o644⟩ :=
  ⟨(atomic_open_mode_branch (fun _ => none) "f" "r" ".__atomic-write0" true (.ok "x")).1
      (by decide) "f",
    (atomic_open_mode_branch (fun _ => none) "f" "w" ".__atomic-write0" true (.ok "x")).2
      (by decide)⟩

end Lektor
